import Mathlib

/-!
Verification of the Opportunity Detection & Risk Classification Engine of the
`bot_telegram` sports-trading repository.

The engine's numeric code (in `utils.py` and `src/analyzer.py`) is shallowly
embedded here over `ℚ` (Python floats are modelled as exact rationals; the
monetary two-decimal rounding `round(x, 2)` is modelled by `round2`).  Python's
`float('inf')`, produced by the cycle classifier when the green percentage is
not positive, is modelled by `Option ℚ` with `none` standing for infinity
(every comparison `inf <= r` against a finite `r` is false, matching the
`none` branch below).
-/

namespace BotTelegram

/-- Two-decimal rounding used by the recommendation generator
(`round(x, 2)` in Python). -/
def round2 (x : ℚ) : ℚ := ((round (x * 100) : ℤ) : ℚ) / 100

/-! ### Configuration constants (`src/config.py`) -/

def MAX_BACK_ODDS : ℚ := 1.06
def MIN_LAY_ODDS : ℚ := 30.0
def MIN_ODDS_DIFFERENCE : ℚ := 0.05
def MIN_PROBABILITY : ℚ := 0.60

/-- One entry of the module-level `CYCLE_SETTINGS` dict. -/
structure CycleSettings where
  green_target : ℚ
  max_red : ℚ
  rr_ratio : ℚ
deriving DecidableEq

def defaultSettings : CycleSettings := ⟨0.05, 0.15, 3⟩
def conservativeSettings : CycleSettings := ⟨0.03, 0.09, 3⟩
def aggressiveSettings : CycleSettings := ⟨0.10, 0.30, 3⟩
def initialCustomSettings : CycleSettings := ⟨0.05, 0.15, 3⟩

/-! ### Pure trading calculations (`utils.py`) -/

/-- Embeds `decimal_to_probability`: `1 / odds if odds > 0 else 0`. -/
def decimal_to_probability (odds : ℚ) : ℚ :=
  if odds > 0 then 1 / odds else 0

/-- Embeds `calculate_lay_liability`: `stake * (odds - 1)`. -/
def calculate_lay_liability (stake odds : ℚ) : ℚ := stake * (odds - 1)

/-- Embeds `calculate_back_profit`: `stake * (odds - 1)`. -/
def calculate_back_profit (stake odds : ℚ) : ℚ := stake * (odds - 1)

/-- Embeds `identify_arbitrage`: arbitrage iff the summed implied probabilities are
below `0.98`; margin `(1 - total) * 100` when arbitrage holds, else `0`. -/
def identify_arbitrage (back_odds lay_odds : ℚ) : Bool × ℚ :=
  let back_prob := decimal_to_probability back_odds
  let lay_prob := decimal_to_probability lay_odds
  let total_prob := back_prob + lay_prob
  if total_prob < 0.98 then (true, (1 - total_prob) * 100)
  else (false, 0)

/-- Result record of `calculate_cycle_opportunity` (also the shape of the
merged `cycle_info` dict after `cycle_info.update(stake_info)`).
`rr_realized = none` models Python's `float('inf')`. -/
structure CycleCalc where
  is_valid : Bool
  type : String
  odds : ℚ
  green_percent : ℚ
  red_percent : ℚ
  stake : ℚ
  green_value : ℚ
  red_value : ℚ
  rr_realized : Option ℚ
deriving DecidableEq

/-- Embeds `calculate_cycle_opportunity` from `utils.py`, translated clause by
clause.  The base stake is the fixed `100`; `is_back` selects the back or lay
formulas; validity is the back/lay criterion of the cycle method. -/
def calculate_cycle_opportunity (odds : ℚ) (is_back : Bool)
    (green_target max_red rr_cap : ℚ) : CycleCalc :=
  let stake : ℚ := 100
  let gp : ℚ := if is_back then odds - 1 else 1 / odds
  let gv : ℚ := if is_back then calculate_back_profit stake odds else stake
  let rp : ℚ := if is_back then 1 else (odds - 1) / odds
  let rv : ℚ := if is_back then stake else calculate_lay_liability stake odds
  let ratio : Option ℚ := if gp > 0 then some (rp / gp) else none
  let ratioOk : Bool := match ratio with
    | some r => decide (r ≤ rr_cap)
    | none => false
  let valid : Bool :=
    if is_back then
      decide (gp ≥ green_target) && decide (gp ≤ green_target * 1.5) && ratioOk
    else
      decide (gp ≥ green_target) && decide (rp ≤ max_red) && ratioOk
  { is_valid := valid
    type := if is_back then "BACK" else "LAY"
    odds := odds
    green_percent := gp
    red_percent := rp
    stake := stake
    green_value := gv
    red_value := rv
    rr_realized := ratio }

/-- Result record of `adjust_stake_for_cycle`. -/
structure StakeAdjust where
  stake : ℚ
  green_value : ℚ
  red_value : ℚ
  green_percent : ℚ
  red_percent : ℚ
deriving DecidableEq

/-- The all-zero record `adjust_stake_for_cycle` starts from (and returns
unchanged for a back position with non-positive profit multiplier). -/
def zeroStake : StakeAdjust := ⟨0, 0, 0, 0, 0⟩

/-- Embeds `adjust_stake_for_cycle` from `utils.py`: size the stake so the profit
equals `target_green_percent` of the bankroll (default `1000`). -/
def adjust_stake_for_cycle (odds : ℚ) (is_back : Bool)
    (target_green_percent : ℚ) (bankroll : ℚ := 1000) : StakeAdjust :=
  if is_back then
    let profit_multiplier := odds - 1
    if profit_multiplier > 0 then
      let stake := (target_green_percent * bankroll) / profit_multiplier
      { stake := stake
        green_value := stake * profit_multiplier
        red_value := stake
        green_percent := target_green_percent
        red_percent := stake / bankroll }
    else zeroStake
  else
    let stake := target_green_percent * bankroll
    { stake := stake
      green_value := stake
      red_value := calculate_lay_liability stake odds
      green_percent := target_green_percent
      red_percent := calculate_lay_liability stake odds / bankroll }

/-- Embeds `cycle_info.update(stake_info)`: the stake-related keys of the classifier
record are overwritten by the adjuster record; `is_valid`, `type`, `odds` and
the realized ratio are untouched. -/
def mergeCycleStake (c : CycleCalc) (s : StakeAdjust) : CycleCalc :=
  { c with
    stake := s.stake
    green_value := s.green_value
    red_value := s.red_value
    green_percent := s.green_percent
    red_percent := s.red_percent }

/-! ### Recommendation generator (`src/analyzer.py`, `_generate_recommendation`) -/

inductive RecAction where
  | BACK | LAY | BACK_AND_LAY | MONITOR
deriving DecidableEq

structure Recommendation where
  action : RecAction
  confidence : ℚ
  strategy : String
  stake_recommendation : ℚ
  potential_profit : ℚ
  max_liability : ℚ
deriving DecidableEq

/-- Embeds `_generate_recommendation`: the fixed-priority decision table.  The
caller passes the implied back probability and the arbitrage flag it already
computed; rule 1 (cycle back) fires first, then cycle lay, arbitrage,
value back, value lay, and finally MONITOR. -/
def generate_recommendation (back_price lay_price back_prob : ℚ)
    (is_arbitrage : Bool) : Recommendation :=
  if back_price ≤ MAX_BACK_ODDS then
    { action := .BACK, confidence := 0.90, strategy := "Método dos Ciclos (Back)"
      stake_recommendation := 100
      potential_profit := round2 (calculate_back_profit 100 back_price)
      max_liability := 100 }
  else if lay_price ≥ MIN_LAY_ODDS then
    { action := .LAY, confidence := 0.90, strategy := "Método dos Ciclos (Lay)"
      stake_recommendation := 100
      potential_profit := 100
      max_liability := round2 (calculate_lay_liability 100 lay_price) }
  else if is_arbitrage then
    let back_stake : ℚ := 100
    let lay_stake : ℚ := back_stake * (back_price / lay_price)
    let back_profit := calculate_back_profit back_stake back_price
    let lay_liability := calculate_lay_liability lay_stake lay_price
    { action := .BACK_AND_LAY, confidence := 0.95, strategy := "Arbitragem"
      stake_recommendation := 100
      potential_profit := round2 (back_profit - lay_liability)
      max_liability := round2 lay_liability }
  else if back_prob ≥ MIN_PROBABILITY ∧ back_price < lay_price then
    { action := .BACK, confidence := back_prob, strategy := "Valor Esperado"
      stake_recommendation := 50
      potential_profit := round2 (calculate_back_profit 50 back_price)
      max_liability := 50 }
  else if decimal_to_probability lay_price ≥ MIN_PROBABILITY then
    { action := .LAY, confidence := decimal_to_probability lay_price
      strategy := "Lay de Valor"
      stake_recommendation := 50
      potential_profit := 50
      max_liability := round2 (calculate_lay_liability 50 lay_price) }
  else
    { action := .MONITOR, confidence := 0, strategy := "Aguardar"
      stake_recommendation := 0, potential_profit := 0, max_liability := 0 }

/-! ### Market data model (`src/analyzer.py`) -/

/-- A raw price from the feed: Python distinguishes `float` prices (decimal
odds, passed through) from `int` prices (American odds, converted by
`_american_to_decimal` after selection). -/
inductive RawPrice where
  | dec (q : ℚ)
  | amer (z : ℤ)
deriving DecidableEq

/-- The numeric value used when raw prices are compared (Python compares the
ints and floats directly in `max`/`min`). -/
def RawPrice.val : RawPrice → ℚ
  | .dec q => q
  | .amer z => z

/-- Embeds `_american_to_decimal`: positive American odds convert as `a/100 + 1`,
non-positive ones as `100/|a| + 1`. -/
def american_to_decimal (a : ℤ) : ℚ :=
  if a > 0 then (a : ℚ) / 100 + 1 else 100 / |(a : ℚ)| + 1

/-- Decimal conversion applied after best-price selection: ints are American
odds, floats pass through. -/
def RawPrice.toDecimal : RawPrice → ℚ
  | .dec q => q
  | .amer z => american_to_decimal z

structure Outcome where
  name : String
  price : RawPrice
deriving DecidableEq

structure Market where
  key : String
  outcomes : List Outcome
deriving DecidableEq

structure Bookmaker where
  key : String
  markets : List Market
deriving DecidableEq

/-- One entry of the `all_odds[team]` lists: bookmaker key, raw price, and
the `market_type` tag of the collecting pass. -/
structure OddsEntry where
  bookmaker : String
  price : RawPrice
  market_type : String
deriving DecidableEq

/-- Insert one quote into the ordered team table, mirroring insertion into
the Python dict `all_odds` (existing team: append to its list; new team:
append a fresh group at the end). -/
def addEntry : List (String × List OddsEntry) → String → OddsEntry →
    List (String × List OddsEntry)
  | [], team, e => [(team, [e])]
  | (t, es) :: rest, team, e =>
    if t = team then (t, es ++ [e]) :: rest
    else (t, es) :: addEntry rest team e

/-- The stream of (team, entry) pairs scanned by the collection loops of
`_analyze_market`, in visit order: bookmakers, their markets with the wanted
key, their outcomes. -/
def quotesOf (bookmakers : List Bookmaker) (market_type : String) :
    List (String × OddsEntry) :=
  bookmakers.flatMap fun b =>
    (b.markets.filter fun m => m.key == market_type).flatMap fun m =>
      m.outcomes.map fun o => (o.name, ⟨b.key, o.price, market_type⟩)

/-- The `all_odds` table of `_analyze_market`. -/
def collectOdds (bookmakers : List Bookmaker) (market_type : String) :
    List (String × List OddsEntry) :=
  (quotesOf bookmakers market_type).foldl
    (fun acc p => addEntry acc p.1 p.2) []

/-- Association lookup in the ordered team table (Python dict access
`all_odds[team]`). -/
def lookupGroup (m : List (String × List OddsEntry)) (t : String) :
    Option (List OddsEntry) :=
  (m.find? fun p => p.1 == t).map fun p => p.2

/-- All entries for outcome name `t` in a quote stream, in encounter
order. -/
def entriesFor (l : List (String × OddsEntry)) (t : String) :
    List OddsEntry :=
  (l.filter fun p => p.1 == t).map fun p => p.2

/-- Python's `max(xs, key=price)` scan: keep the current element and replace
it only on a strictly greater price, so the first maximal element wins
ties. -/
def pickMax : OddsEntry → List OddsEntry → OddsEntry
  | acc, [] => acc
  | acc, e :: rest =>
    pickMax (if acc.price.val < e.price.val then e else acc) rest

def maxByPrice : List OddsEntry → Option OddsEntry
  | [] => none
  | e :: rest => some (pickMax e rest)

/-- Python's `min(xs, key=price)` scan: replace only on a strictly smaller
price, so the first minimal element wins ties. -/
def pickMin : OddsEntry → List OddsEntry → OddsEntry
  | acc, [] => acc
  | acc, e :: rest =>
    pickMin (if e.price.val < acc.price.val then e else acc) rest

def minByPrice : List OddsEntry → Option OddsEntry
  | [] => none
  | e :: rest => some (pickMin e rest)

/-- The per-team candidate selection of `_analyze_market`: partition the
team's entries by market-type tag and, when both sides are present, take the
maximal-price back entry and the minimal-price lay entry. -/
def selectBest (entries : List OddsEntry) : Option (OddsEntry × OddsEntry) :=
  let back_odds := entries.filter fun e => e.market_type == "h2h"
  let lay_odds := entries.filter fun e => e.market_type == "h2h_lay"
  match maxByPrice back_odds, minByPrice lay_odds with
  | some bb, some bl => some (bb, bl)
  | _, _ => none

structure PriceQuote where
  bookmaker : String
  price : ℚ
  probability : ℚ
deriving DecidableEq

/-- The opportunity record built by `_analyze_market`.  `potential_cycle`
models the presence of the optional `'potential_cycle'` key and `cycle_info`
the presence of the `'cycle_info'` key. -/
structure Opportunity where
  event_id : String
  sport : String
  home_team : String
  away_team : String
  team : String
  commence_time : String
  timestamp : ℤ
  back : PriceQuote
  lay : PriceQuote
  difference_percent : ℚ
  is_arbitrage : Bool
  arbitrage_margin : ℚ
  recommendation : Recommendation
  potential_cycle : Bool
  cycle_info : Option CycleCalc
deriving DecidableEq

/-- The body of the `for team in all_odds` loop of `_analyze_market`: select
the best pair, convert American odds to decimal, gate on `back < lay` and on
the minimum percentage difference, and build the opportunity record.  `now`
stands for `int(time.time())`. -/
def processTeam (event_id home_team away_team commence_time sport : String)
    (now : ℤ) (team : String) (entries : List OddsEntry) :
    Option Opportunity :=
  match selectBest entries with
  | none => none
  | some (bb, bl) =>
    let back_price := bb.price.toDecimal
    let lay_price := bl.price.toDecimal
    if back_price < lay_price then
      let diff_percent := (lay_price - back_price) / back_price
      if diff_percent ≥ MIN_ODDS_DIFFERENCE then
        let arb := identify_arbitrage back_price lay_price
        let back_prob := decimal_to_probability back_price
        some
          { event_id := event_id, sport := sport, home_team := home_team
            away_team := away_team, team := team
            commence_time := commence_time, timestamp := now
            back := ⟨bb.bookmaker, back_price, back_prob⟩
            lay := ⟨bl.bookmaker, lay_price,
              decimal_to_probability lay_price⟩
            difference_percent := diff_percent * 100
            is_arbitrage := arb.1
            arbitrage_margin := if arb.1 then arb.2 else 0
            recommendation :=
              generate_recommendation back_price lay_price back_prob arb.1
            potential_cycle :=
              decide (back_price ≤ MAX_BACK_ODDS) ||
                decide (lay_price ≥ MIN_LAY_ODDS)
            cycle_info := none }
      else none
    else none

/-- Embeds `_analyze_market`: collect the quotes for one market type, then emit at
most one opportunity per team. -/
def analyze_market (event_id home_team away_team commence_time : String)
    (bookmakers : List Bookmaker) (market_type sport : String) (now : ℤ) :
    List Opportunity :=
  (collectOdds bookmakers market_type).filterMap fun p =>
    processTeam event_id home_team away_team commence_time sport now p.1 p.2

/-! ### Analyzer state (`TradingAnalyzer` in `src/analyzer.py`) -/

structure Event where
  id : String
  home_team : String
  away_team : String
  commence_time : String
  bookmakers : List Bookmaker
deriving DecidableEq

/-- The mutable module-level part of the `CYCLE_SETTINGS` dict of
`src/config.py`: only its `"custom"` entry is ever reassigned (by
`set_custom_cycle_settings`). -/
structure CycleGlobal where
  custom : CycleSettings
deriving DecidableEq

/-- Lookup in the `CYCLE_SETTINGS` dict: three built-in profiles plus the
mutable custom one; any other name is absent. -/
def cycleSettingsLookup (g : CycleGlobal) (name : String) :
    Option CycleSettings :=
  if name = "default" then some defaultSettings
  else if name = "conservative" then some conservativeSettings
  else if name = "aggressive" then some aggressiveSettings
  else if name = "custom" then some g.custom
  else none

/-- The instance state of `TradingAnalyzer` that the engine touches. -/
structure AnalyzerState where
  opportunities : List Opportunity
  cycle_profile : String
  cycle_settings : CycleSettings
deriving DecidableEq

/-- Embeds `set_cycle_profile`: activate a named profile; an unknown name changes
nothing and reports failure. -/
def set_cycle_profile (g : CycleGlobal) (s : AnalyzerState)
    (profile : String) : AnalyzerState × Bool :=
  match cycleSettingsLookup g profile with
  | some cfg =>
    ({ s with cycle_profile := profile, cycle_settings := cfg }, true)
  | none => (s, false)

/-- Embeds `set_custom_cycle_settings`: overwrite the module-level custom entry and
refresh the analyzer's active settings only when the custom profile is the
active one. -/
def set_custom_cycle_settings (g : CycleGlobal) (s : AnalyzerState)
    (green_target max_red rr_ratio : ℚ) : CycleGlobal × AnalyzerState :=
  let cfg : CycleSettings := ⟨green_target, max_red, rr_ratio⟩
  ({ custom := cfg },
   if s.cycle_profile = "custom" then { s with cycle_settings := cfg }
   else s)

/-- Embeds `analyze_cycle_opportunities`: for each opportunity, a back-side shallow
copy when the back price is within `MAX_BACK_ODDS` and the classifier
validates it, then a lay-side shallow copy when the lay price is at least
`MIN_LAY_ODDS` and the classifier validates it; each copy carries the merged
cycle info while the original record is untouched. -/
def backCycleCopy (settings : CycleSettings) (opp : Opportunity) :
    List Opportunity :=
  if opp.back.price ≤ MAX_BACK_ODDS then
    if (calculate_cycle_opportunity opp.back.price true settings.green_target
        settings.max_red settings.rr_ratio).is_valid then
      [{ opp with cycle_info := some (mergeCycleStake
          (calculate_cycle_opportunity opp.back.price true
            settings.green_target settings.max_red settings.rr_ratio)
          (adjust_stake_for_cycle opp.back.price true
            settings.green_target)) }]
    else []
  else []

def layCycleCopy (settings : CycleSettings) (opp : Opportunity) :
    List Opportunity :=
  if opp.lay.price ≥ MIN_LAY_ODDS then
    if (calculate_cycle_opportunity opp.lay.price false settings.green_target
        settings.max_red settings.rr_ratio).is_valid then
      [{ opp with cycle_info := some (mergeCycleStake
          (calculate_cycle_opportunity opp.lay.price false
            settings.green_target settings.max_red settings.rr_ratio)
          (adjust_stake_for_cycle opp.lay.price false
            settings.green_target)) }]
    else []
  else []

def analyze_cycle_opportunities (settings : CycleSettings)
    (opportunities : List Opportunity) : List Opportunity :=
  opportunities.flatMap fun opp =>
    backCycleCopy settings opp ++ layCycleCopy settings opp

/-- Embeds `analyze_back_lay_opportunities`: rebuild the opportunity list from the
odds snapshot (one `h2h` pass and one `h2h_lay` pass per event), compute and
discard the cycle copies, and replace the stored set wholesale. -/
def analyze_back_lay_opportunities (odds_data : List (String × List Event))
    (now : ℤ) (s : AnalyzerState) : AnalyzerState × List Opportunity :=
  let opportunities := odds_data.flatMap fun sp =>
    sp.2.flatMap fun ev =>
      (["h2h", "h2h_lay"] : List String).flatMap fun mt =>
        analyze_market ev.id ev.home_team ev.away_team ev.commence_time
          ev.bookmakers mt sp.1 now
  ({ s with opportunities := opportunities }, opportunities)

/-- Embeds `get_cycle_opportunities`: the stored opportunities that carry cycle
info. -/
def get_cycle_opportunities (s : AnalyzerState) : List Opportunity :=
  s.opportunities.filter fun opp => opp.cycle_info.isSome

/-! ### Claim theorems for the pure calculations -/

/-- C1: the recommendation generator is a fixed-priority decision table and
rule 1 wins over everything: whenever `backPrice <= MAX_BACK_ODDS`, the result
is action BACK with confidence 0.90, stake 100, potential profit
`100 * (backPrice - 1)` rounded to two decimals, and max liability 100,
regardless of the lay price, the arbitrage flag, or the implied
probability. -/
theorem C1_cycle_back_rule_first (bp lp prob : ℚ) (arb : Bool)
    (h : bp ≤ MAX_BACK_ODDS) :
    generate_recommendation bp lp prob arb =
      { action := .BACK, confidence := 0.90
        strategy := "Método dos Ciclos (Back)"
        stake_recommendation := 100
        potential_profit := round2 (100 * (bp - 1))
        max_liability := 100 } := by
  simp [generate_recommendation, h, calculate_back_profit]

/-- Witness for C1: `backPrice = 1.05 <= 1.06` with `layPrice = 40` (and the
arbitrage flag set) yields action BACK. -/
theorem C1_witness :
    (1.05 : ℚ) ≤ MAX_BACK_ODDS ∧
      (generate_recommendation 1.05 40 (decimal_to_probability 1.05)
          true).action = RecAction.BACK := by
  have h : (1.05 : ℚ) ≤ MAX_BACK_ODDS := by norm_num [MAX_BACK_ODDS]
  exact ⟨h, by rw [C1_cycle_back_rule_first 1.05 40 _ true h]⟩

/-- C2: for back positions with odds above 1, the cycle classifier computes
green% = odds - 1, red% = 1, realized ratio = red%/green% = 1/(odds-1), and is
valid iff `greenTarget <= green% <= greenTarget * 1.5` and the realized ratio
is at most the profile's risk/reward cap; at odds 1.05 under the default
profile the green bounds hold but the ratio is 20 > 3, so it is invalid. -/
theorem C2_back_cycle_classifier :
    (∀ o gt mr rr : ℚ, 1 < o →
      (calculate_cycle_opportunity o true gt mr rr).green_percent = o - 1 ∧
      (calculate_cycle_opportunity o true gt mr rr).red_percent = 1 ∧
      (calculate_cycle_opportunity o true gt mr rr).rr_realized
          = some (1 / (o - 1)) ∧
      ((calculate_cycle_opportunity o true gt mr rr).is_valid = true ↔
        gt ≤ o - 1 ∧ o - 1 ≤ gt * 1.5 ∧ 1 / (o - 1) ≤ rr)) ∧
    ((calculate_cycle_opportunity 1.05 true 0.05 0.15 3).green_percent
        = 0.05 ∧
      (0.05 : ℚ) ≤ 0.05 ∧ (0.05 : ℚ) ≤ 0.05 * 1.5 ∧
      (calculate_cycle_opportunity 1.05 true 0.05 0.15 3).rr_realized
        = some 20 ∧
      ¬ ((20 : ℚ) ≤ 3) ∧
      (calculate_cycle_opportunity 1.05 true 0.05 0.15 3).is_valid
        = false) := by
  constructor
  · intro o gt mr rr h
    have hgp : o - 1 > 0 := by linarith
    refine ⟨by simp [calculate_cycle_opportunity],
      by simp [calculate_cycle_opportunity], ?_, ?_⟩
    · simp [calculate_cycle_opportunity, hgp]
    · simp [calculate_cycle_opportunity, hgp, Bool.and_eq_true,
        decide_eq_true_iff, ge_iff_le, and_assoc]
  · refine ⟨?_, by norm_num, by norm_num, ?_, by norm_num, ?_⟩ <;>
      norm_num [calculate_cycle_opportunity]

/-- Witness for C2: the quantified part of the theorem applied at odds 1.05
with the default profile forces invalidity. -/
theorem C2_witness :
    (1 : ℚ) < 1.05 ∧
      (calculate_cycle_opportunity 1.05 true 0.05 0.15 3).is_valid
        = false := by
  have h : (1 : ℚ) < 1.05 := by norm_num
  refine ⟨h, ?_⟩
  have hc := (C2_back_cycle_classifier.1 1.05 0.05 0.15 3 h).2.2.2
  cases hb : (calculate_cycle_opportunity 1.05 true 0.05 0.15 3).is_valid
  · rfl
  · exfalso
    have hcontra := hc.mp hb
    norm_num at hcontra

/-- C3: the arbitrage detector reports arbitrage exactly when the summed
implied probabilities fall below 0.98, with margin `(1 - total) * 100` in that
case and margin 0 otherwise; 1.90/2.10 is no arbitrage with margin 0 and
2.20/2.50 is arbitrage with margin 160/11 ≈ 14.55. -/
theorem C3_identify_arbitrage_spec :
    (∀ b l : ℚ, ((identify_arbitrage b l).1 = true ↔
      decimal_to_probability b + decimal_to_probability l < 0.98)) ∧
    (∀ b l : ℚ, (identify_arbitrage b l).1 = true →
      (identify_arbitrage b l).2 =
        (1 - (decimal_to_probability b + decimal_to_probability l)) * 100) ∧
    (∀ b l : ℚ, (identify_arbitrage b l).1 = false →
      (identify_arbitrage b l).2 = 0) ∧
    identify_arbitrage 1.90 2.10 = (false, 0) ∧
    (identify_arbitrage 2.20 2.50).1 = true ∧
    (identify_arbitrage 2.20 2.50).2 = 160 / 11 ∧
    |(160 / 11 : ℚ) - 14.55| < 1 / 100 := by
  refine ⟨fun b l => ?_, fun b l h => ?_, fun b l h => ?_, ?_, ?_, ?_, ?_⟩
  · by_cases hb : decimal_to_probability b + decimal_to_probability l < 0.98 <;>
      simp [identify_arbitrage, hb]
  · by_cases hb : decimal_to_probability b + decimal_to_probability l < 0.98
    · simp [identify_arbitrage, hb]
    · simp [identify_arbitrage, hb] at h
  · by_cases hb : decimal_to_probability b + decimal_to_probability l < 0.98
    · simp [identify_arbitrage, hb] at h
    · simp [identify_arbitrage, hb]
  · norm_num [identify_arbitrage, decimal_to_probability]
  · norm_num [identify_arbitrage, decimal_to_probability]
  · norm_num [identify_arbitrage, decimal_to_probability]
  · rw [abs_of_neg (by norm_num)]
    norm_num

/-- Witness for C3: the margin equation applied at the arbitrage pair
2.20/2.50, whose arbitrage flag is obtained from the iff direction. -/
theorem C3_witness :
    decimal_to_probability 2.20 + decimal_to_probability 2.50 < 0.98 ∧
      (identify_arbitrage 2.20 2.50).2 =
        (1 - (decimal_to_probability 2.20 + decimal_to_probability 2.50))
          * 100 := by
  have h : decimal_to_probability 2.20 + decimal_to_probability 2.50
      < 0.98 := by
    norm_num [decimal_to_probability]
  exact ⟨h, C3_identify_arbitrage_spec.2.1 2.20 2.50
    ((C3_identify_arbitrage_spec.1 2.20 2.50).mpr h)⟩

/-- C5: the stake adjuster on a lay position returns stake `t*B`, green value
equal to the stake, red value `stake*(o-1)` and red percent `redValue/B`
without clamping (for odds 30, target 0.05, bankroll 1000 the red percent is
1.45 > 1); on a back position with odds above 1 it returns stake
`t*B/(o-1)`, green value `stake*(o-1)`, red value equal to the stake and red
percent `stake/B`; on a back position with odds at most 1 it returns the
all-zero record instead of dividing by zero. -/
theorem C5_adjust_stake_spec (o t B : ℚ) :
    (adjust_stake_for_cycle o false t B =
      { stake := t * B, green_value := t * B
        red_value := t * B * (o - 1), green_percent := t
        red_percent := t * B * (o - 1) / B }) ∧
    (1 < o →
      adjust_stake_for_cycle o true t B =
        { stake := t * B / (o - 1)
          green_value := t * B / (o - 1) * (o - 1)
          red_value := t * B / (o - 1), green_percent := t
          red_percent := t * B / (o - 1) / B }) ∧
    (o ≤ 1 → adjust_stake_for_cycle o true t B = zeroStake) ∧
    adjust_stake_for_cycle 30 false 0.05 1000 =
      { stake := 50, green_value := 50, red_value := 1450
        green_percent := 0.05, red_percent := 1.45 } ∧
    ¬ ((1.45 : ℚ) ≤ 1) := by
  refine ⟨rfl, fun h => ?_, fun h => ?_, ?_, by norm_num⟩
  · simp [adjust_stake_for_cycle, show o - 1 > 0 by linarith]
  · simp [adjust_stake_for_cycle, show ¬ (o - 1 > 0) by linarith]
  · simp only [adjust_stake_for_cycle, calculate_lay_liability,
      StakeAdjust.mk.injEq]
    norm_num

/-- Witness for C5: both back branches of the theorem discharged at concrete
inputs (odds 2 with positive multiplier, odds 1 with the zero record). -/
theorem C5_witness :
    ((1 : ℚ) < 2 ∧ adjust_stake_for_cycle 2 true 0.05 1000 =
        { stake := 50, green_value := 50, red_value := 50
          green_percent := 0.05, red_percent := 0.05 }) ∧
    ((1 : ℚ) ≤ 1 ∧ adjust_stake_for_cycle 1 true 0.05 1000 = zeroStake) := by
  refine ⟨⟨by norm_num, ?_⟩,
    le_refl (1 : ℚ), (C5_adjust_stake_spec 1 0.05 1000).2.2.1 (le_refl 1)⟩
  have h := (C5_adjust_stake_spec 2 0.05 1000).2.1 (by norm_num)
  rw [h]
  simp only [StakeAdjust.mk.injEq]
  norm_num

/-- C7: activating a profile by name either succeeds for a known name
(installing that profile) or fails for an unknown name, leaving both the
active profile name and the active settings exactly as they were; the known
names are exactly default, conservative, aggressive and custom. -/
theorem C7_set_cycle_profile (g : CycleGlobal) (s : AnalyzerState)
    (p : String) :
    (∀ cfg, cycleSettingsLookup g p = some cfg →
      set_cycle_profile g s p =
        ({ s with cycle_profile := p, cycle_settings := cfg }, true)) ∧
    (cycleSettingsLookup g p = none →
      (set_cycle_profile g s p).1.cycle_profile = s.cycle_profile ∧
      (set_cycle_profile g s p).1.cycle_settings = s.cycle_settings ∧
      (set_cycle_profile g s p).1 = s ∧
      (set_cycle_profile g s p).2 = false) ∧
    ((cycleSettingsLookup g p).isSome ↔
      p = "default" ∨ p = "conservative" ∨ p = "aggressive" ∨
        p = "custom") := by
  refine ⟨fun cfg h => by simp [set_cycle_profile, h], fun h => ?_, ?_⟩
  · simp [set_cycle_profile, h]
  · unfold cycleSettingsLookup
    split_ifs with h1 h2 h3 h4 <;> simp_all

/-- Witness for C7: activating "conservative" from the initial state
succeeds; activating the unknown name "bogus" leaves the state unchanged. -/
theorem C7_witness :
    cycleSettingsLookup ⟨initialCustomSettings⟩ "conservative"
        = some conservativeSettings ∧
    set_cycle_profile ⟨initialCustomSettings⟩
        ⟨[], "default", defaultSettings⟩ "conservative" =
      (⟨[], "conservative", conservativeSettings⟩, true) ∧
    cycleSettingsLookup ⟨initialCustomSettings⟩ "bogus" = none ∧
    (set_cycle_profile ⟨initialCustomSettings⟩
        ⟨[], "default", defaultSettings⟩ "bogus").1 =
      ⟨[], "default", defaultSettings⟩ := by
  refine ⟨rfl, ?_, rfl, ?_⟩
  · exact (C7_set_cycle_profile ⟨initialCustomSettings⟩
      ⟨[], "default", defaultSettings⟩ "conservative").1
      conservativeSettings rfl
  · exact ((C7_set_cycle_profile ⟨initialCustomSettings⟩
      ⟨[], "default", defaultSettings⟩ "bogus").2.1 rfl).2.2.1

/-- C10: installing custom parameters always overwrites the stored custom
profile; the active settings change only when the active profile is
"custom", and with any other active profile the analyzer state is left
completely unchanged. -/
theorem C10_custom_settings_frame (g : CycleGlobal) (s : AnalyzerState)
    (gt mr rr : ℚ) :
    (set_custom_cycle_settings g s gt mr rr).1.custom = ⟨gt, mr, rr⟩ ∧
    (s.cycle_profile = "custom" →
      (set_custom_cycle_settings g s gt mr rr).2.cycle_settings
        = ⟨gt, mr, rr⟩) ∧
    (s.cycle_profile ≠ "custom" →
      (set_custom_cycle_settings g s gt mr rr).2 = s) := by
  refine ⟨rfl, fun h => ?_, fun h => ?_⟩ <;>
    simp [set_custom_cycle_settings, h]

/-- Witness for C10: with the custom profile active the call refreshes the
active settings; with the default profile active the analyzer state is
untouched. -/
theorem C10_witness :
    (set_custom_cycle_settings ⟨initialCustomSettings⟩
        ⟨[], "custom", defaultSettings⟩ 0.01 0.5 7).2.cycle_settings
      = ⟨0.01, 0.5, 7⟩ ∧
    (set_custom_cycle_settings ⟨initialCustomSettings⟩
        ⟨[], "default", defaultSettings⟩ 0.01 0.5 7).2 =
      ⟨[], "default", defaultSettings⟩ := by
  refine ⟨(C10_custom_settings_frame ⟨initialCustomSettings⟩
      ⟨[], "custom", defaultSettings⟩ 0.01 0.5 7).2.1 rfl,
    (C10_custom_settings_frame ⟨initialCustomSettings⟩
      ⟨[], "default", defaultSettings⟩ 0.01 0.5 7).2.2 (by decide)⟩

/-- Helper: a record emitted at the emission point of `_analyze_market`
passed both gates and carries no cycle info. -/
theorem processTeam_some_spec {eid ht aw ct sp : String} {now : ℤ}
    {team : String} {entries : List OddsEntry} {o : Opportunity}
    (h : processTeam eid ht aw ct sp now team entries = some o) :
    o.cycle_info = none ∧ o.back.price < o.lay.price ∧
      MIN_ODDS_DIFFERENCE ≤ (o.lay.price - o.back.price) / o.back.price := by
  unfold processTeam at h
  cases hsel : selectBest entries with
  | none => rw [hsel] at h; exact absurd h (by simp)
  | some pair =>
    obtain ⟨bb, bl⟩ := pair
    rw [hsel] at h
    simp only at h
    split_ifs at h with h1 h2 h3 <;> cases h <;> exact ⟨rfl, h1, h2⟩

/-- C4: every opportunity record the engine emits satisfies
`back price < lay price` and `(lay - back)/back >= MIN_ODDS_DIFFERENCE`, and
at the emission point a matched pair violating either condition produces no
record at all. -/
theorem C4_emitted_invariant :
    (∀ (eid ht aw ct : String) (bs : List Bookmaker) (mt sp : String)
        (now : ℤ) (o : Opportunity),
      o ∈ analyze_market eid ht aw ct bs mt sp now →
        o.back.price < o.lay.price ∧
        MIN_ODDS_DIFFERENCE ≤ (o.lay.price - o.back.price) / o.back.price) ∧
    (∀ (eid ht aw ct sp : String) (now : ℤ) (team : String)
        (entries : List OddsEntry) (o : Opportunity),
      processTeam eid ht aw ct sp now team entries = some o →
        o.back.price < o.lay.price ∧
        MIN_ODDS_DIFFERENCE ≤ (o.lay.price - o.back.price) / o.back.price) ∧
    (∀ (eid ht aw ct sp : String) (now : ℤ) (team : String)
        (entries : List OddsEntry) (bb bl : OddsEntry),
      selectBest entries = some (bb, bl) →
      ¬ (bb.price.toDecimal < bl.price.toDecimal ∧
          MIN_ODDS_DIFFERENCE ≤
            (bl.price.toDecimal - bb.price.toDecimal) /
              bb.price.toDecimal) →
      processTeam eid ht aw ct sp now team entries = none) := by
  refine ⟨fun eid ht aw ct bs mt sp now o ho => ?_,
    fun eid ht aw ct sp now team entries o h =>
      (processTeam_some_spec h).2,
    fun eid ht aw ct sp now team entries bb bl hsel hng => ?_⟩
  · rw [analyze_market, List.mem_filterMap] at ho
    obtain ⟨p, _, hp⟩ := ho
    exact (processTeam_some_spec hp).2
  · unfold processTeam
    rw [hsel]
    simp only
    split_ifs with h1 h2
    · exact absurd ⟨h1, h2⟩ hng
    · rfl
    · rfl

/-- Witness for C4: a concrete team with one back quote at 2.0 and one lay
quote at 3.0 passes the emission point and the emitted record satisfies the
invariant. -/
theorem C4_witness :
    ∃ o, processTeam "ev" "home" "away" "ct" "soccer" 0 "team"
        [⟨"bk1", .dec 2, "h2h"⟩, ⟨"bk2", .dec 3, "h2h_lay"⟩] = some o ∧
      (o.back.price < o.lay.price ∧
        MIN_ODDS_DIFFERENCE ≤
          (o.lay.price - o.back.price) / o.back.price) := by
  have hsel : selectBest [⟨"bk1", .dec 2, "h2h"⟩, ⟨"bk2", .dec 3, "h2h_lay"⟩]
      = some (⟨"bk1", .dec 2, "h2h"⟩, ⟨"bk2", .dec 3, "h2h_lay"⟩) := rfl
  have h1 : (2 : ℚ) < 3 := by norm_num
  have h2 : ((3 : ℚ) - 2) / 2 ≥ MIN_ODDS_DIFFERENCE := by
    norm_num [MIN_ODDS_DIFFERENCE]
  obtain ⟨o, ho⟩ : ∃ o, processTeam "ev" "home" "away" "ct" "soccer" 0
      "team" [⟨"bk1", .dec 2, "h2h"⟩, ⟨"bk2", .dec 3, "h2h_lay"⟩]
        = some o := by
    unfold processTeam
    rw [hsel]
    simp only [RawPrice.toDecimal]
    rw [if_pos h1, if_pos h2]
    exact ⟨_, rfl⟩
  exact ⟨o, ho, C4_emitted_invariant.2.1 "ev" "home" "away" "ct" "soccer"
    0 "team" [⟨"bk1", .dec 2, "h2h"⟩, ⟨"bk2", .dec 3, "h2h_lay"⟩] o ho⟩

/-- C9: after any full analysis pass, no stored opportunity carries a
cycle-info field (cycle info only ever lands on discarded shallow copies), so
the exposed cycle-opportunity filter returns the empty list. -/
theorem C9_get_cycle_opportunities_empty
    (odds_data : List (String × List Event)) (now : ℤ) (s : AnalyzerState) :
    get_cycle_opportunities
      (analyze_back_lay_opportunities odds_data now s).1 = [] := by
  rw [get_cycle_opportunities, analyze_back_lay_opportunities]
  rw [List.filter_eq_nil_iff]
  intro o ho
  simp only [List.mem_flatMap] at ho
  obtain ⟨sp, _, ev, _, mt, _, ho⟩ := ho
  rw [analyze_market, List.mem_filterMap] at ho
  obtain ⟨p, _, hp⟩ := ho
  simp [(processTeam_some_spec hp).1]

/-! ### Lemmas about the grouping table of `_analyze_market` -/

theorem addEntry_cons_same (t : String) (es : List OddsEntry)
    (rest : List (String × List OddsEntry)) (e : OddsEntry) :
    addEntry ((t, es) :: rest) t e = (t, es ++ [e]) :: rest := by
  simp [addEntry]

theorem addEntry_cons_ne (a1 : String) (es : List OddsEntry)
    (rest : List (String × List OddsEntry)) (t : String) (e : OddsEntry)
    (h : a1 ≠ t) :
    addEntry ((a1, es) :: rest) t e = (a1, es) :: addEntry rest t e := by
  simp [addEntry, h]

theorem lookupGroup_cons_same (a1 : String) (a2 : List OddsEntry)
    (rest : List (String × List OddsEntry)) :
    lookupGroup ((a1, a2) :: rest) a1 = some a2 := by
  simp [lookupGroup]

theorem lookupGroup_cons_ne (a1 : String) (a2 : List OddsEntry)
    (rest : List (String × List OddsEntry)) (t : String) (h : a1 ≠ t) :
    lookupGroup ((a1, a2) :: rest) t = lookupGroup rest t := by
  simp [lookupGroup, List.find?_cons_of_neg, h]

theorem entriesFor_cons_same (t : String) (e : OddsEntry)
    (rest : List (String × OddsEntry)) :
    entriesFor ((t, e) :: rest) t = e :: entriesFor rest t := by
  simp [entriesFor, List.filter_cons]

theorem entriesFor_cons_ne (n : String) (e : OddsEntry)
    (rest : List (String × OddsEntry)) (t : String) (h : n ≠ t) :
    entriesFor ((n, e) :: rest) t = entriesFor rest t := by
  simp [entriesFor, List.filter_cons, h]

theorem lookupGroup_addEntry_same (m : List (String × List OddsEntry))
    (t : String) (e : OddsEntry) :
    lookupGroup (addEntry m t e) t
      = some ((lookupGroup m t).getD [] ++ [e]) := by
  induction m with
  | nil => simp [addEntry, lookupGroup]
  | cons a rest ih =>
    obtain ⟨a1, a2⟩ := a
    by_cases h : a1 = t
    · subst h
      rw [addEntry_cons_same, lookupGroup_cons_same, lookupGroup_cons_same]
      simp
    · rw [addEntry_cons_ne _ _ _ _ _ h, lookupGroup_cons_ne _ _ _ _ h,
        lookupGroup_cons_ne _ _ _ _ h, ih]

theorem lookupGroup_addEntry_other (m : List (String × List OddsEntry))
    (t t' : String) (e : OddsEntry) (h : t' ≠ t) :
    lookupGroup (addEntry m t e) t' = lookupGroup m t' := by
  induction m with
  | nil =>
    simp only [addEntry]
    rw [lookupGroup_cons_ne _ _ _ _ (Ne.symm h)]
  | cons a rest ih =>
    obtain ⟨a1, a2⟩ := a
    by_cases hat : a1 = t
    · subst hat
      rw [addEntry_cons_same, lookupGroup_cons_ne _ _ _ _ (Ne.symm h),
        lookupGroup_cons_ne _ _ _ _ (Ne.symm h)]
    · rw [addEntry_cons_ne _ _ _ _ _ hat]
      by_cases hat' : a1 = t'
      · subst hat'
        rw [lookupGroup_cons_same, lookupGroup_cons_same]
      · rw [lookupGroup_cons_ne _ _ _ _ hat',
          lookupGroup_cons_ne _ _ _ _ hat', ih]

theorem lookupGroup_foldl_some (l : List (String × OddsEntry))
    (m : List (String × List OddsEntry)) (t : String)
    (es : List OddsEntry) (h : lookupGroup m t = some es) :
    lookupGroup (l.foldl (fun acc p => addEntry acc p.1 p.2) m) t
      = some (es ++ entriesFor l t) := by
  induction l generalizing m es with
  | nil => simpa [entriesFor] using h
  | cons q rest ih =>
    obtain ⟨n, e⟩ := q
    rw [List.foldl_cons]
    by_cases hn : n = t
    · subst hn
      have h2 : lookupGroup (addEntry m n e) n = some (es ++ [e]) := by
        rw [lookupGroup_addEntry_same, h]
        simp
      rw [ih _ _ h2, entriesFor_cons_same]
      simp
    · have h2 : lookupGroup (addEntry m n e) t = some es := by
        rw [lookupGroup_addEntry_other _ _ _ _ (Ne.symm hn)]
        exact h
      rw [ih _ _ h2, entriesFor_cons_ne _ _ _ _ hn]

theorem lookupGroup_foldl_none (l : List (String × OddsEntry))
    (m : List (String × List OddsEntry)) (t : String)
    (h : lookupGroup m t = none) :
    lookupGroup (l.foldl (fun acc p => addEntry acc p.1 p.2) m) t
      = if (l.map Prod.fst).contains t then some (entriesFor l t)
        else none := by
  induction l generalizing m with
  | nil => simpa using h
  | cons q rest ih =>
    obtain ⟨n, e⟩ := q
    rw [List.foldl_cons]
    by_cases hn : n = t
    · subst hn
      have h2 : lookupGroup (addEntry m n e) n = some [e] := by
        rw [lookupGroup_addEntry_same, h]
        simp
      rw [lookupGroup_foldl_some rest _ _ _ h2, List.map_cons,
        List.contains_cons, entriesFor_cons_same]
      simp
    · have h2 : lookupGroup (addEntry m n e) t = none := by
        rw [lookupGroup_addEntry_other _ _ _ _ (Ne.symm hn)]
        exact h
      rw [ih _ h2, List.map_cons, List.contains_cons,
        beq_eq_false_iff_ne.mpr (Ne.symm hn), Bool.false_or,
        entriesFor_cons_ne _ _ _ _ hn]

/-! ### Lemmas about the best-price scans of `_analyze_market` -/

theorem pickMax_le (l : List OddsEntry) (acc : OddsEntry) :
    ∀ x ∈ acc :: l, x.price.val ≤ (pickMax acc l).price.val := by
  induction l generalizing acc with
  | nil =>
    intro x hx
    rw [List.mem_singleton] at hx
    subst hx
    simp [pickMax]
  | cons e rest ih =>
    intro x hx
    by_cases h : acc.price.val < e.price.val
    · have hstep : pickMax acc (e :: rest) = pickMax e rest := by
        simp [pickMax, h]
      rw [hstep]
      rcases List.mem_cons.mp hx with rfl | hx
      · exact le_of_lt (lt_of_lt_of_le h
          (ih e e (List.mem_cons_self e rest)))
      · exact ih e x hx
    · have hstep : pickMax acc (e :: rest) = pickMax acc rest := by
        simp [pickMax, h]
      rw [hstep]
      rcases List.mem_cons.mp hx with rfl | hx
      · exact ih _ _ (List.mem_cons_self _ _)
      · rcases List.mem_cons.mp hx with rfl | hx
        · exact le_trans (le_of_not_lt h)
            (ih _ _ (List.mem_cons_self _ _))
        · exact ih _ _ (List.mem_cons_of_mem _ hx)

theorem pickMax_first (l : List OddsEntry) (acc : OddsEntry) :
    (acc :: l).find?
        (fun x => decide ((pickMax acc l).price.val ≤ x.price.val))
      = some (pickMax acc l) := by
  induction l generalizing acc with
  | nil =>
    simp only [pickMax]
    exact List.find?_cons_of_pos _ (by simp)
  | cons e rest ih =>
    by_cases h : acc.price.val < e.price.val
    · have hstep : pickMax acc (e :: rest) = pickMax e rest := by
        simp [pickMax, h]
      rw [hstep]
      have hr : e.price.val ≤ (pickMax e rest).price.val :=
        pickMax_le rest e e (List.mem_cons_self e rest)
      have hacc : ¬ ((pickMax e rest).price.val ≤ acc.price.val) :=
        not_le_of_lt (lt_of_lt_of_le h hr)
      rw [List.find?_cons_of_neg _ (by simpa using hacc)]
      exact ih e
    · have hstep : pickMax acc (e :: rest) = pickMax acc rest := by
        simp [pickMax, h]
      rw [hstep]
      by_cases hacc : (pickMax acc rest).price.val ≤ acc.price.val
      · have h1 := ih acc
        rw [List.find?_cons_of_pos _ (by simpa using hacc)] at h1
        rw [List.find?_cons_of_pos _ (by simpa using hacc)]
        exact h1
      · have he : ¬ ((pickMax acc rest).price.val ≤ e.price.val) :=
          fun hle => hacc (le_trans hle (le_of_not_lt h))
        have h1 := ih acc
        rw [List.find?_cons_of_neg _ (by simpa using hacc)] at h1
        rw [List.find?_cons_of_neg _ (by simpa using hacc),
          List.find?_cons_of_neg _ (by simpa using he)]
        exact h1

theorem pickMin_le (l : List OddsEntry) (acc : OddsEntry) :
    ∀ x ∈ acc :: l, (pickMin acc l).price.val ≤ x.price.val := by
  induction l generalizing acc with
  | nil =>
    intro x hx
    rw [List.mem_singleton] at hx
    subst hx
    simp [pickMin]
  | cons e rest ih =>
    intro x hx
    by_cases h : e.price.val < acc.price.val
    · have hstep : pickMin acc (e :: rest) = pickMin e rest := by
        simp [pickMin, h]
      rw [hstep]
      rcases List.mem_cons.mp hx with rfl | hx
      · exact le_of_lt (lt_of_le_of_lt
          (ih e e (List.mem_cons_self e rest)) h)
      · exact ih e x hx
    · have hstep : pickMin acc (e :: rest) = pickMin acc rest := by
        simp [pickMin, h]
      rw [hstep]
      rcases List.mem_cons.mp hx with rfl | hx
      · exact ih _ _ (List.mem_cons_self _ _)
      · rcases List.mem_cons.mp hx with rfl | hx
        · exact le_trans (ih _ _ (List.mem_cons_self _ _))
            (le_of_not_lt h)
        · exact ih _ _ (List.mem_cons_of_mem _ hx)

theorem pickMin_first (l : List OddsEntry) (acc : OddsEntry) :
    (acc :: l).find?
        (fun x => decide (x.price.val ≤ (pickMin acc l).price.val))
      = some (pickMin acc l) := by
  induction l generalizing acc with
  | nil =>
    simp only [pickMin]
    exact List.find?_cons_of_pos _ (by simp)
  | cons e rest ih =>
    by_cases h : e.price.val < acc.price.val
    · have hstep : pickMin acc (e :: rest) = pickMin e rest := by
        simp [pickMin, h]
      rw [hstep]
      have hr : (pickMin e rest).price.val ≤ e.price.val :=
        pickMin_le rest e e (List.mem_cons_self e rest)
      have hacc : ¬ (acc.price.val ≤ (pickMin e rest).price.val) :=
        not_le_of_lt (lt_of_le_of_lt hr h)
      rw [List.find?_cons_of_neg _ (by simpa using hacc)]
      exact ih e
    · have hstep : pickMin acc (e :: rest) = pickMin acc rest := by
        simp [pickMin, h]
      rw [hstep]
      by_cases hacc : acc.price.val ≤ (pickMin acc rest).price.val
      · have h1 := ih acc
        rw [List.find?_cons_of_pos _ (by simpa using hacc)] at h1
        rw [List.find?_cons_of_pos _ (by simpa using hacc)]
        exact h1
      · have he : ¬ (e.price.val ≤ (pickMin acc rest).price.val) :=
          fun hle => hacc (le_trans (le_of_not_lt h) hle)
        have h1 := ih acc
        rw [List.find?_cons_of_neg _ (by simpa using hacc)] at h1
        rw [List.find?_cons_of_neg _ (by simpa using hacc),
          List.find?_cons_of_neg _ (by simpa using he)]
        exact h1

/-- C6: the market matcher groups quotes by outcome name in encounter order
(the table maps a name occurring in the quote stream to exactly its entries,
in input order), partitions each outcome's entries into back-side and
lay-side lists and, when both are non-empty, selects the maximal-price back
entry and the minimal-price lay entry, the first encountered winning ties;
an outcome with an empty side produces no matched pair. -/
theorem C6_matcher_spec :
    (∀ (bookmakers : List Bookmaker) (market_type t : String),
      lookupGroup (collectOdds bookmakers market_type) t =
        if ((quotesOf bookmakers market_type).map Prod.fst).contains t then
          some (entriesFor (quotesOf bookmakers market_type) t)
        else none) ∧
    (∀ entries : List OddsEntry,
      (entries.filter fun e => e.market_type == "h2h") ≠ [] →
      (entries.filter fun e => e.market_type == "h2h_lay") ≠ [] →
      ∃ bb bl, selectBest entries = some (bb, bl) ∧
        bb ∈ entries.filter (fun e => e.market_type == "h2h") ∧
        (∀ x ∈ entries.filter (fun e => e.market_type == "h2h"),
          x.price.val ≤ bb.price.val) ∧
        (entries.filter (fun e => e.market_type == "h2h")).find?
            (fun x => decide (bb.price.val ≤ x.price.val)) = some bb ∧
        bl ∈ entries.filter (fun e => e.market_type == "h2h_lay") ∧
        (∀ x ∈ entries.filter (fun e => e.market_type == "h2h_lay"),
          bl.price.val ≤ x.price.val) ∧
        (entries.filter (fun e => e.market_type == "h2h_lay")).find?
            (fun x => decide (x.price.val ≤ bl.price.val)) = some bl) ∧
    (∀ entries : List OddsEntry,
      ((entries.filter fun e => e.market_type == "h2h") = [] ∨
        (entries.filter fun e => e.market_type == "h2h_lay") = []) →
      selectBest entries = none) := by
  refine ⟨fun bookmakers market_type t =>
    lookupGroup_foldl_none _ _ _ rfl, ?_, ?_⟩
  · intro entries hb hl
    cases hbacks : entries.filter (fun e => e.market_type == "h2h") with
    | nil => exact absurd hbacks hb
    | cons b bs =>
      cases hlays : entries.filter (fun e => e.market_type == "h2h_lay") with
      | nil => exact absurd hlays hl
      | cons c cs =>
        refine ⟨pickMax b bs, pickMin c cs, ?_, ?_, ?_, ?_, ?_, ?_, ?_⟩
        · simp only [selectBest, hbacks, hlays, maxByPrice, minByPrice]
        · exact List.mem_of_find?_eq_some (pickMax_first bs b)
        · exact pickMax_le bs b
        · exact pickMax_first bs b
        · exact List.mem_of_find?_eq_some (pickMin_first cs c)
        · exact pickMin_le cs c
        · exact pickMin_first cs c
  · intro entries h
    rcases h with h | h
    · simp only [selectBest, h, maxByPrice]
    · simp only [selectBest, h, minByPrice]
      cases maxByPrice (entries.filter fun e => e.market_type == "h2h") <;>
        rfl

/-- Witness for C6: a team with back quotes at 2.0 and 3.0 and a lay quote
at 2.5 yields a matched pair whose back price dominates both back quotes,
while a team with only a back quote yields none. -/
theorem C6_witness :
    (([⟨"b1", .dec 2, "h2h"⟩, ⟨"b2", .dec 3, "h2h"⟩,
        ⟨"b3", .dec 2.5, "h2h_lay"⟩] : List OddsEntry).filter
          (fun e => e.market_type == "h2h")) ≠ [] ∧
    (([⟨"b1", .dec 2, "h2h"⟩, ⟨"b2", .dec 3, "h2h"⟩,
        ⟨"b3", .dec 2.5, "h2h_lay"⟩] : List OddsEntry).filter
          (fun e => e.market_type == "h2h_lay")) ≠ [] ∧
    (∃ bb bl, selectBest [⟨"b1", .dec 2, "h2h"⟩, ⟨"b2", .dec 3, "h2h"⟩,
        ⟨"b3", .dec 2.5, "h2h_lay"⟩] = some (bb, bl) ∧
      (∀ x ∈ ([⟨"b1", .dec 2, "h2h"⟩, ⟨"b2", .dec 3, "h2h"⟩,
          ⟨"b3", .dec 2.5, "h2h_lay"⟩] : List OddsEntry).filter
            (fun e => e.market_type == "h2h"),
        x.price.val ≤ bb.price.val)) ∧
    selectBest [⟨"b1", .dec 2, "h2h"⟩] = none := by
  obtain ⟨bb, bl, hsel, hmem, hle, hfind, hmem2, hle2, hfind2⟩ :=
    C6_matcher_spec.2.1 [⟨"b1", .dec 2, "h2h"⟩, ⟨"b2", .dec 3, "h2h"⟩,
      ⟨"b3", .dec 2.5, "h2h_lay"⟩] (by decide) (by decide)
  exact ⟨by decide, by decide, ⟨bb, bl, hsel, hle⟩,
    C6_matcher_spec.2.2 [⟨"b1", .dec 2, "h2h"⟩] (Or.inr (by decide))⟩

/-- C8: every record emitted by the cycle analysis that carries cycle info
was validated by the classifier under the active settings at the very odds
stored in it, and its odds field is the record's back price for a BACK entry
and the record's lay price for a LAY entry. -/
theorem C8_cycle_info_consistent (settings : CycleSettings)
    (opportunities : List Opportunity) (o : Opportunity) (ci : CycleCalc)
    (ho : o ∈ analyze_cycle_opportunities settings opportunities)
    (hci : o.cycle_info = some ci) :
    ci.is_valid = true ∧
    (ci.type = "BACK" →
      ci.odds = o.back.price ∧
      (calculate_cycle_opportunity o.back.price true settings.green_target
        settings.max_red settings.rr_ratio).is_valid = true) ∧
    (ci.type = "LAY" →
      ci.odds = o.lay.price ∧
      (calculate_cycle_opportunity o.lay.price false settings.green_target
        settings.max_red settings.rr_ratio).is_valid = true) := by
  rw [analyze_cycle_opportunities, List.mem_flatMap] at ho
  obtain ⟨opp, _, ho⟩ := ho
  rw [List.mem_append] at ho
  rcases ho with ho | ho
  · rw [backCycleCopy] at ho
    split_ifs at ho with h1 h2
    · rw [List.mem_singleton] at ho
      subst ho
      obtain rfl := Option.some.inj hci
      exact ⟨h2, fun _ => ⟨rfl, h2⟩, fun hty => absurd hty (by
        simp [mergeCycleStake, calculate_cycle_opportunity])⟩
    · simp at ho
    · simp at ho
  · rw [layCycleCopy] at ho
    split_ifs at ho with h1 h2
    · rw [List.mem_singleton] at ho
      subst ho
      obtain rfl := Option.some.inj hci
      exact ⟨h2, fun hty => absurd hty (by
        simp [mergeCycleStake, calculate_cycle_opportunity]),
        fun _ => ⟨rfl, h2⟩⟩
    · simp at ho
    · simp at ho

/-- Witness for C8: under a permissive custom profile (green target 1%, max
red 100%, ratio cap 50) a lay quote at odds 50 produces a cycle copy, and
the theorem yields validity and the odds/type consistency for it. -/
theorem C8_witness :
    ∃ o ci,
      o ∈ analyze_cycle_opportunities ⟨1/100, 1, 50⟩
        [{ event_id := "e", sport := "s", home_team := "h", away_team := "a"
           team := "t", commence_time := "c", timestamp := 0
           back := ⟨"bk", 2, 1/2⟩, lay := ⟨"bk2", 50, 1/50⟩
           difference_percent := 0, is_arbitrage := false
           arbitrage_margin := 0
           recommendation := ⟨.MONITOR, 0, "Aguardar", 0, 0, 0⟩
           potential_cycle := false, cycle_info := none }] ∧
      o.cycle_info = some ci ∧ ci.is_valid = true ∧
      (ci.type = "LAY" → ci.odds = o.lay.price) := by
  have hv : (calculate_cycle_opportunity 50 false ((100 : ℚ)⁻¹) 1
      50).is_valid = true := by
    norm_num [calculate_cycle_opportunity]
  have hb : ¬ ((2 : ℚ) ≤ MAX_BACK_ODDS) := by norm_num [MAX_BACK_ODDS]
  have hl : (50 : ℚ) ≥ MIN_LAY_ODDS := by norm_num [MIN_LAY_ODDS]
  have hmem :
      ({ event_id := "e", sport := "s", home_team := "h",
         away_team := "a", team := "t", commence_time := "c",
         timestamp := 0,
         back := ⟨"bk", 2, 1/2⟩, lay := ⟨"bk2", 50, 1/50⟩,
         difference_percent := 0, is_arbitrage := false,
         arbitrage_margin := 0,
         recommendation := ⟨.MONITOR, 0, "Aguardar", 0, 0, 0⟩,
         potential_cycle := false,
         cycle_info := some (mergeCycleStake
           (calculate_cycle_opportunity 50 false (1/100) 1 50)
           (adjust_stake_for_cycle 50 false (1/100))) } : Opportunity)
      ∈ analyze_cycle_opportunities ⟨1/100, 1, 50⟩
        [{ event_id := "e", sport := "s", home_team := "h", away_team := "a"
           team := "t", commence_time := "c", timestamp := 0
           back := ⟨"bk", 2, 1/2⟩, lay := ⟨"bk2", 50, 1/50⟩
           difference_percent := 0, is_arbitrage := false
           arbitrage_margin := 0
           recommendation := ⟨.MONITOR, 0, "Aguardar", 0, 0, 0⟩
           potential_cycle := false, cycle_info := none }] := by
    simp [analyze_cycle_opportunities, backCycleCopy, layCycleCopy, hv, hb,
      hl]
  exact ⟨_, _, hmem, rfl, (C8_cycle_info_consistent _ _ _ _ hmem rfl).1,
    fun hty => ((C8_cycle_info_consistent _ _ _ _ hmem rfl).2.2 hty).1⟩

end BotTelegram
